import Mathlib

/-!
Verification of the collaborative-editing and versioning subsystem of the
EriEthio-Partners-CMS repository, shallow-embedded from
`src/lib/collaboration/CollaborationManager.ts` and
`src/lib/versioning/VersionManager.ts`.

Modelling conventions:
* Time is milliseconds since epoch as `Nat`; every method of the TS class that
  reads the clock (`new Date()` / `Date.now()`) takes the current instant as an
  explicit `now` parameter.
* The JavaScript `Map` objects `sessions` and `operations` become association
  lists (`SMap`) with JS `Map.get` / `Map.set` / `Map.delete` semantics.
* The Durable Store (Prisma) is embedded as explicit fields of the state:
  `dbLocks` (the `assetLock` table, keyed by assetId) and `dbHistory` (the
  `assetHistory` table, an append-only list).  A Durable Store call that may
  throw is given its outcome as a parameter (`persistResult : Option String`,
  `some msg` meaning the call threw an error with message `msg`).
* Thrown `Error(msg)` values become `Except String` / `Option String` carrying
  the exact message string of the source.
* `uuidv4()` and the server clock in the version store are externalized as the
  `newId` / `now` parameters of `createVersion` and `revertToVersion`.
* The external `diff-match-patch` library (an npm dependency, not repository
  code) is a parameter `differ` of `compareVersions`, standing for
  `diff_main` followed by `diff_cleanupSemantic`; its output is a list of
  (op, text) spans.
-/

/-- Association-list map with string keys, mirroring the JS `Map` used for the
in-memory `sessions` and `operations` registries. -/
abbrev SMap (α : Type) := List (String × α)

/-- JS `Map.get`. -/
def SMap.find? {α : Type} (m : SMap α) (k : String) : Option α :=
  (List.find? (fun p => p.1 == k) m).map (·.2)

/-- JS `Map.set` (replaces the binding if the key is present). -/
def SMap.insert {α : Type} (m : SMap α) (k : String) (v : α) : SMap α :=
  match m with
  | [] => [(k, v)]
  | (k', v') :: rest =>
    if k' == k then (k, v) :: rest else (k', v') :: SMap.insert rest k v

/-- JS `Map.delete`. -/
def SMap.erase {α : Type} (m : SMap α) (k : String) : SMap α :=
  List.filter (fun p => p.1 != k) m

/-- The list of keys of the map, in insertion order. -/
def SMap.keys {α : Type} (m : SMap α) : List String :=
  m.map Prod.fst

/-! ## Collaboration data model (`CollaborationManager.ts`) -/

/-- `Operation.type` of `CollaborationManager.ts`:
`'insert' | 'delete' | 'replace' | 'move'`. -/
inductive OpType where
  | insert
  | delete
  | replace
  | move
deriving Repr, DecidableEq

/-- The `Operation` interface of `CollaborationManager.ts`. -/
structure Operation where
  type : OpType
  position : Int
  content : Option String := none
  length : Option Nat := none
  newPosition : Option Int := none
  userId : String
  timestamp : Nat
deriving Repr, DecidableEq

/-- A member entry of `CollaborationSession.users`. -/
structure SessionUser where
  id : String
  name : String
  cursor : Option (Int × Int) := none
  selection : Option (Int × Int) := none
deriving Repr, DecidableEq

/-- The `locked` field of a session: `{ userId, until }` (field renamed `lockUntil`; `until` is reserved in Lean). -/
structure LockInfo where
  userId : String
  lockUntil : Nat
deriving Repr, DecidableEq

/-- The `CollaborationSession` interface. -/
structure CollaborationSession where
  id : String
  assetId : String
  users : List SessionUser
  lastModified : Nat
  locked : Option LockInfo := none
deriving Repr, DecidableEq

/-- A row of the persisted `assetLock` table (`prisma.assetLock`). -/
structure DbLock where
  userId : String
  expiresAt : Nat
deriving Repr, DecidableEq

/-- A row of the persisted `assetHistory` table (`prisma.assetHistory.create`). -/
structure HistoryRecord where
  assetId : String
  userId : String
  operation : OpType
  data : Operation
  timestamp : Nat
deriving Repr, DecidableEq

/-- The mutable state of a `CollaborationManager` instance together with the
Durable Store tables it touches. -/
structure ManagerState where
  sessions : SMap CollaborationSession
  operations : SMap (List Operation)
  dbLocks : SMap DbLock
  dbHistory : List HistoryRecord
deriving Repr, DecidableEq

/-- `LOCK_DURATION = 5 * 60 * 1000` (five minutes in milliseconds). -/
def LOCK_DURATION : Nat := 5 * 60 * 1000

/-- Events emitted back over the socket: an `error` event to the sender, an
`operation` broadcast, or a `lock-state` broadcast. -/
inductive Event where
  | errorMsg (message : String)
  | opBroadcast (op : Operation)
  | lockBroadcast (lock : Option LockInfo)
deriving Repr, DecidableEq

/-- `joinSession` of `CollaborationManager.ts`: create the session (and its
empty operation buffer) if absent, then add the user unless already a member. -/
def joinSession (st : ManagerState) (sessionId : String) (uid uname : String)
    (now : Nat) : ManagerState :=
  match SMap.find? st.sessions sessionId with
  | some session =>
    if (session.users.find? (fun u => u.id == uid)).isSome then st
    else
      let session1 : CollaborationSession :=
        { session with users := session.users ++ [{ id := uid, name := uname }] }
      { st with sessions := st.sessions.insert sessionId session1 }
  | none =>
    let session : CollaborationSession :=
      { id := sessionId, assetId := sessionId, users := [], lastModified := now }
    let st1 : ManagerState :=
      { st with sessions := st.sessions.insert sessionId session,
                operations := st.operations.insert sessionId [] }
    let session1 : CollaborationSession :=
      { session with users := session.users ++ [{ id := uid, name := uname }] }
    { st1 with sessions := st1.sessions.insert sessionId session1 }

/-- `leaveSession`: remove the member; when membership becomes empty, delete
both the session and its operation buffer from the registries. -/
def leaveSession (st : ManagerState) (sessionId userId : String) : ManagerState :=
  match SMap.find? st.sessions sessionId with
  | none => st
  | some session =>
    let users := session.users.filter (fun u => u.id != userId)
    if users.isEmpty then
      { st with sessions := st.sessions.erase sessionId,
                operations := st.operations.erase sessionId }
    else
      { st with sessions := st.sessions.insert sessionId { session with users := users } }

/-- `getActiveUsers`: the session's member list, or `[]` when no session. -/
def getActiveUsers (st : ManagerState) (assetId : String) : List SessionUser :=
  ((SMap.find? st.sessions assetId).map (·.users)).getD []

/-- `canUserEdit`: `false` when the session is missing; `true` when unlocked;
an expired lock (`until <= now`) is deleted in place and editing is allowed;
otherwise only the holder may edit.  Returns the possibly-mutated state. -/
def canUserEdit (st : ManagerState) (sessionId userId : String) (now : Nat) :
    Bool × ManagerState :=
  match SMap.find? st.sessions sessionId with
  | none => (false, st)
  | some session =>
    match session.locked with
    | none => (true, st)
    | some l =>
      if l.lockUntil ≤ now then
        let session1 : CollaborationSession := { session with locked := none }
        (true, { st with sessions := st.sessions.insert sessionId session1 })
      else
        (l.userId == userId, st)

/-- `lockAsset`: throws `'Session not found'` when no session; a non-expired
lock (`until > now`) held by another user throws
`'Asset is locked by another user'`, held by the caller it is a no-op;
otherwise a fresh lock until `now + LOCK_DURATION` is granted in memory and
upserted into the persisted `assetLock` table. -/
def lockAsset (st : ManagerState) (sessionId userId : String) (now : Nat) :
    Except String ManagerState :=
  match SMap.find? st.sessions sessionId with
  | none => .error "Session not found"
  | some session =>
    let grant : ManagerState :=
      let session1 : CollaborationSession :=
        { session with locked := some { userId := userId, lockUntil := now + LOCK_DURATION } }
      { st with sessions := st.sessions.insert sessionId session1,
                dbLocks := st.dbLocks.insert sessionId ⟨userId, now + LOCK_DURATION⟩ }
    match session.locked with
    | some l =>
      if now < l.lockUntil then
        if l.userId != userId then .error "Asset is locked by another user"
        else .ok st
      else .ok grant
    | none => .ok grant

/-- `releaseLock`: throws `'Session not found'` when no session; throws
`'Cannot release lock: not the lock owner'` when no lock is recorded or the
caller is not the recorded holder (no expiry check is made); on success the
in-memory lock is removed and the persisted lock row is deleted. -/
def releaseLock (st : ManagerState) (sessionId userId : String) :
    Except String ManagerState :=
  match SMap.find? st.sessions sessionId with
  | none => .error "Session not found"
  | some session =>
    match session.locked with
    | none => .error "Cannot release lock: not the lock owner"
    | some l =>
      if l.userId != userId then .error "Cannot release lock: not the lock owner"
      else
        let session1 : CollaborationSession := { session with locked := none }
        .ok { st with sessions := st.sessions.insert sessionId session1,
                      dbLocks := st.dbLocks.erase sessionId }

/-- Outcome of `applyOperation`: the state after the in-place mutations,
the message of the error thrown by the Durable Store call (if any), and how
many times the persist call was attempted. -/
structure ApplyOut where
  state : ManagerState
  thrown : Option String
  persistAttempts : Nat
deriving Repr, DecidableEq

/-- `applyOperation`: silently returns when the operation buffer is missing;
otherwise pushes the operation onto the in-memory log, updates the session's
`lastModified`, and then awaits `prisma.assetHistory.create`.  When that call
throws, the error propagates but the in-memory mutations remain (JS mutates
the arrays in place). -/
def applyOperation (st : ManagerState) (sessionId : String) (op : Operation)
    (persistResult : Option String) : ApplyOut :=
  match SMap.find? st.operations sessionId with
  | none => { state := st, thrown := none, persistAttempts := 0 }
  | some ops =>
    let st1 : ManagerState :=
      { st with operations := st.operations.insert sessionId (ops ++ [op]) }
    let st2 : ManagerState :=
      match SMap.find? st1.sessions sessionId with
      | some session =>
        let session1 : CollaborationSession := { session with lastModified := op.timestamp }
        { st1 with sessions := st1.sessions.insert sessionId session1 }
      | none => st1
    match persistResult with
    | none =>
      { state := { st2 with dbHistory := st2.dbHistory ++
          [{ assetId := sessionId, userId := op.userId, operation := op.type,
             data := op, timestamp := op.timestamp }] },
        thrown := none, persistAttempts := 1 }
    | some msg => { state := st2, thrown := some msg, persistAttempts := 1 }

/-- Outcome of a socket-event handler: the state after the call and the events
emitted back over the channel, plus the number of persist attempts made. -/
structure HandlerOut where
  state : ManagerState
  events : List Event
  persistAttempts : Nat
deriving Repr, DecidableEq

/-- The `socket.on('operation')` handler: reject via `canUserEdit` with the
message `'Asset is locked by another user'`; otherwise stamp `userId` and a
server timestamp onto the payload, `await applyOperation`, and broadcast the
operation only when no error was thrown; a thrown error is emitted back to
the sender as an `error` event. -/
def handleOperation (st : ManagerState) (sessionId userId : String)
    (data : Operation) (now : Nat) (persistResult : Option String) : HandlerOut :=
  let checked := canUserEdit st sessionId userId now
  if !checked.1 then
    { state := checked.2, events := [.errorMsg "Asset is locked by another user"],
      persistAttempts := 0 }
  else
    let op : Operation := { data with userId := userId, timestamp := now }
    let r := applyOperation checked.2 sessionId op persistResult
    match r.thrown with
    | some msg =>
      { state := r.state, events := [.errorMsg msg], persistAttempts := r.persistAttempts }
    | none =>
      { state := r.state, events := [.opBroadcast op], persistAttempts := r.persistAttempts }

/-- `broadcastLockState`: emits the session's current lock over the channel
(nothing when the session is missing). -/
def broadcastLockState (st : ManagerState) (sessionId : String) : List Event :=
  match SMap.find? st.sessions sessionId with
  | none => []
  | some session => [.lockBroadcast session.locked]

/-- The `socket.on('request-lock')` handler: `await lockAsset` then broadcast
the lock state; a thrown error is emitted back to the sender. -/
def handleRequestLock (st : ManagerState) (sessionId userId : String) (now : Nat) :
    ManagerState × List Event :=
  match lockAsset st sessionId userId now with
  | .ok st1 => (st1, broadcastLockState st1 sessionId)
  | .error msg => (st, [.errorMsg msg])

/-- The `socket.on('release-lock')` handler: `await releaseLock` then broadcast
the lock state; a thrown error is emitted back to the sender. -/
def handleReleaseLock (st : ManagerState) (sessionId userId : String) :
    ManagerState × List Event :=
  match releaseLock st sessionId userId with
  | .ok st1 => (st1, broadcastLockState st1 sessionId)
  | .error msg => (st, [.errorMsg msg])

/-- Well-formedness of the registry: the `sessions` and `operations` maps have
the same keys in the same insertion order.  The source maintains this by
always creating and deleting the two entries together (`joinSession`,
`leaveSession`, `cleanup`). -/
def ManagerState.wf (st : ManagerState) : Prop :=
  SMap.keys st.sessions = SMap.keys st.operations

instance (st : ManagerState) : Decidable st.wf := by
  unfold ManagerState.wf; infer_instance

/-- `u` holds a non-expired lock on `sessionId` at instant `now`. -/
def holdsLock (st : ManagerState) (sessionId u : String) (now : Nat) : Prop :=
  ∃ session l, SMap.find? st.sessions sessionId = some session ∧
    session.locked = some l ∧ l.userId = u ∧ now < l.lockUntil

/-! ## Versioning data model (`VersionManager.ts`) -/

/-- `Change.type` of `VersionManager.ts`: `'add' | 'modify' | 'delete'`. -/
inductive ChangeType where
  | add
  | modify
  | delete
deriving Repr, DecidableEq

/-- The `Change` interface.  `metadata`, when present, holds the `diffs`
produced by the external diff library (a list of (op, text) spans). -/
structure Change where
  type : ChangeType
  path : String
  content : Option String := none
  previousContent : Option String := none
  metadata : Option (List (Int × String)) := none
deriving Repr, DecidableEq

/-- The `Version` interface (the always-empty `metadata: {}` field is omitted
as it carries no information). -/
structure Version where
  id : String
  assetId : String
  userId : String
  timestamp : Nat
  changes : List Change
  tags : List String
  description : String
deriving Repr, DecidableEq

/-- The Durable Store's `assetVersion` table as seen by `VersionManager`. -/
structure VMState where
  versions : List Version
deriving Repr, DecidableEq

/-- `getVersion`: `prisma.assetVersion.findUnique({ where: { id } })`. -/
def getVersion (st : VMState) (versionId : String) : Option Version :=
  st.versions.find? (fun v => v.id == versionId)

/-- `createVersion`: builds a fresh `Version` (`uuidv4()` and `new Date()`
externalized as `newId` / `now`) and appends it to the store; always
succeeds. -/
def createVersion (st : VMState) (newId : String) (now : Nat)
    (assetId userId : String) (changes : List Change) (description : String)
    (tags : List String) : Version × VMState :=
  let v : Version :=
    { id := newId, assetId := assetId, userId := userId, timestamp := now,
      changes := changes, tags := tags, description := description }
  (v, { versions := st.versions ++ [v] })

/-- The inverse of one change as computed inside `revertToVersion`:
add becomes delete carrying the add's content as `previousContent`; delete
becomes add carrying the delete's `previousContent` as content; modify swaps
`content` and `previousContent`. -/
def invertChange (c : Change) : Change :=
  match c.type with
  | .add => { type := .delete, path := c.path, previousContent := c.content }
  | .delete => { type := .add, path := c.path, content := c.previousContent }
  | .modify => { type := .modify, path := c.path, content := c.previousContent,
                 previousContent := c.content }

/-- `revertToVersion`: throws `'Version not found'` when the target is missing;
otherwise commits the inverted change set as a brand-new version tagged
`revert`, whose description names the reverted-to version. -/
def revertToVersion (st : VMState) (newId : String) (now : Nat)
    (assetId versionId userId : String) : Except String (Version × VMState) :=
  match getVersion st versionId with
  | none => .error "Version not found"
  | some version =>
    .ok (createVersion st newId now assetId userId
      (version.changes.map invertChange)
      ("Reverted to version " ++ versionId) ["revert"])

/-- First-occurrence deduplication, the iteration order of the JS
`Set` built in `compareVersions` from the concatenated path lists. -/
def insertionDedup : List String → List String
  | [] => []
  | x :: xs => x :: insertionDedup (xs.filter (fun y => y != x))
termination_by l => l.length
decreasing_by
  simp only [List.length_cons]
  exact Nat.lt_succ_of_le (List.length_filter_le _ _)

/-- The union of the two versions' change paths, in the JS `Set`'s
first-occurrence order. -/
def unionPaths (v1 v2 : Version) : List String :=
  insertionDedup (v1.changes.map (·.path) ++ v2.changes.map (·.path))

/-- The loop body of `compareVersions` for one path: a path absent from A is
a synthesized add with B's content; a path absent from B is a synthesized
delete with A's content as `previousContent`; differing contents give a
modify carrying the fine-grained diff in `metadata`; identical contents emit
nothing. -/
def comparePath (differ : String → String → List (Int × String))
    (v1 v2 : Version) (path : String) : Option Change :=
  let change1 := v1.changes.find? (fun c => c.path == path)
  let change2 := v2.changes.find? (fun c => c.path == path)
  match change1, change2 with
  | none, _ =>
    some { type := .add, path := path, content := change2.bind (·.content) }
  | some c1, none =>
    some { type := .delete, path := path, previousContent := c1.content }
  | some c1, some c2 =>
    if c1.content ≠ c2.content then
      some { type := .modify, path := path, content := c2.content,
             previousContent := c1.content,
             metadata := some (differ (c1.content.getD "") (c2.content.getD "")) }
    else none

/-- The change list `compareVersions` accumulates over the path union. -/
def compareVersionsChanges (differ : String → String → List (Int × String))
    (v1 v2 : Version) : List Change :=
  (unionPaths v1 v2).filterMap (comparePath differ v1 v2)

/-- `compareVersions`: resolves both ids (throwing
`'One or both versions not found'` when either is missing) and diffs the two
change sets path by path. -/
def compareVersions (differ : String → String → List (Int × String))
    (st : VMState) (id1 id2 : String) : Except String (List Change) :=
  match getVersion st id1, getVersion st id2 with
  | some v1, some v2 => .ok (compareVersionsChanges differ v1 v2)
  | _, _ => .error "One or both versions not found"

/-- Update one version record in the store (`prisma.assetVersion.update`). -/
def updateVersion (st : VMState) (versionId : String) (f : Version → Version) :
    VMState :=
  { versions := st.versions.map (fun v => if v.id == versionId then f v else v) }

/-- `addTag`: throws `'Version not found'` when the version is missing;
otherwise updates with `tags: { push: tag }` — Prisma's `push` appends the
tag unconditionally, with no duplicate check. -/
def addTag (st : VMState) (versionId tag : String) : Except String VMState :=
  match getVersion st versionId with
  | none => .error "Version not found"
  | some _ => .ok (updateVersion st versionId (fun v => { v with tags := v.tags ++ [tag] }))

/-- `removeTag`: throws `'Version not found'` when the version is missing;
otherwise writes back `version.tags.filter(t => t !== tag)`. -/
def removeTag (st : VMState) (versionId tag : String) : Except String VMState :=
  match getVersion st versionId with
  | none => .error "Version not found"
  | some version =>
    .ok (updateVersion st versionId
      (fun _ => { version with tags := version.tags.filter (fun t => t != tag) }))

/-! ## Map lemmas -/

theorem SMap.find?_cons {α : Type} (k' : String) (v' : α) (rest : SMap α) (k : String) :
    SMap.find? ((k', v') :: rest) k =
      if k' = k then some v' else SMap.find? rest k := by
  by_cases h : k' = k
  · simp [SMap.find?, List.find?_cons_of_pos, h]
  · rw [SMap.find?, List.find?_cons_of_neg _ (by simp [h]), if_neg h]; rfl

theorem SMap.find?_insert_self {α : Type} (m : SMap α) (k : String) (v : α) :
    SMap.find? (SMap.insert m k v) k = some v := by
  induction m with
  | nil => simp [SMap.insert, SMap.find?]
  | cons p rest ih =>
    obtain ⟨k', v'⟩ := p
    by_cases h : k' = k
    · simp [SMap.insert, h, SMap.find?_cons]
    · simp only [SMap.insert, beq_iff_eq, h, if_false]
      rw [SMap.find?_cons, if_neg h]
      exact ih

theorem SMap.find?_erase_self {α : Type} (m : SMap α) (k : String) :
    SMap.find? (SMap.erase m k) k = none := by
  induction m with
  | nil => simp [SMap.erase, SMap.find?]
  | cons p rest ih =>
    obtain ⟨k', v'⟩ := p
    by_cases h : k' = k
    · simpa [SMap.erase, h] using ih
    · have hcons : SMap.erase ((k', v') :: rest) k = (k', v') :: SMap.erase rest k := by
        simp [SMap.erase, List.filter_cons, h]
      rw [hcons, SMap.find?_cons, if_neg h]
      exact ih

theorem SMap.find?_isSome_iff {α : Type} (m : SMap α) (k : String) :
    (SMap.find? m k).isSome ↔ k ∈ SMap.keys m := by
  induction m with
  | nil => simp [SMap.find?, SMap.keys]
  | cons p rest ih =>
    obtain ⟨k', v'⟩ := p
    rw [SMap.find?_cons]
    by_cases h : k' = k
    · simp [SMap.keys, h]
    · simp only [if_neg h, SMap.keys, List.map_cons, List.mem_cons] at ih ⊢
      rw [ih]
      constructor
      · exact Or.inr
      · rintro (hk | hk)
        · exact absurd hk.symm h
        · exact hk

theorem SMap.keys_insert_of_mem {α : Type} (m : SMap α) (k : String) (v : α)
    (h : k ∈ SMap.keys m) : SMap.keys (SMap.insert m k v) = SMap.keys m := by
  induction m with
  | nil => simp [SMap.keys] at h
  | cons p rest ih =>
    obtain ⟨k', v'⟩ := p
    by_cases hp : k' = k
    · simp [SMap.insert, SMap.keys, hp]
    · simp only [SMap.keys, List.map_cons, List.mem_cons] at h
      rcases h with h | h
      · exact absurd h.symm hp
      · simp only [SMap.insert, beq_iff_eq, hp, if_false, SMap.keys, List.map_cons,
          List.cons.injEq, true_and]
        exact ih h

/-- In a well-formed registry the operation buffer exists for every live
session (the source keeps the two maps' key sets identical). -/
theorem wf_operations_of_session {st : ManagerState} (h : st.wf) {k : String}
    {s : CollaborationSession} (hs : SMap.find? st.sessions k = some s) :
    ∃ ops, SMap.find? st.operations k = some ops := by
  have h1 : (SMap.find? st.sessions k).isSome := by simp [hs]
  rw [SMap.find?_isSome_iff] at h1
  have h2 : k ∈ SMap.keys st.operations := h ▸ h1
  rw [← SMap.find?_isSome_iff] at h2
  exact Option.isSome_iff_exists.mp h2

/-! ## Claim theorems: locking (C1, C2) -/

/-- C1: for every asset session, at most one user holds a non-expired lock at
any instant; `requestLock` (`lockAsset`) by a different user while a
non-expired lock is held fails with the `LockConflict` error
(`'Asset is locked by another user'`) and leaves the state unchanged;
`requestLock` by the current non-expired holder is an idempotent no-op that
does not extend `expiresAt`; and `requestLock` when the lock is absent or
expired grants a fresh lock with `expiresAt = now + LOCK_DURATION`
(five minutes). -/
theorem C1_requestLock_exclusivity (st : ManagerState) (sessionId : String)
    (now : Nat) (session : CollaborationSession)
    (hs : SMap.find? st.sessions sessionId = some session) :
    (∀ u1 u2, holdsLock st sessionId u1 now → holdsLock st sessionId u2 now → u1 = u2)
    ∧
    (∀ l u, session.locked = some l → now < l.lockUntil → l.userId ≠ u →
       lockAsset st sessionId u now = .error "Asset is locked by another user" ∧
       handleRequestLock st sessionId u now =
         (st, [Event.errorMsg "Asset is locked by another user"]))
    ∧
    (∀ l, session.locked = some l → now < l.lockUntil →
       lockAsset st sessionId l.userId now = .ok st)
    ∧
    (∀ u, (session.locked = none ∨ ∃ l, session.locked = some l ∧ l.lockUntil ≤ now) →
       ∃ st1, lockAsset st sessionId u now = .ok st1 ∧
         SMap.find? st1.sessions sessionId =
           some { session with locked := some ⟨u, now + LOCK_DURATION⟩ } ∧
         SMap.find? st1.dbLocks sessionId = some ⟨u, now + LOCK_DURATION⟩) := by
  refine ⟨?_, ?_, ?_, ?_⟩
  · rintro u1 u2 ⟨s1, l1, hs1, hl1, hu1, _⟩ ⟨s2, l2, hs2, hl2, hu2, _⟩
    rw [hs] at hs1 hs2
    cases hs1; cases hs2
    rw [hl1] at hl2
    cases hl2
    rw [← hu1, ← hu2]
  · intro l u hl hlt hne
    have hlock : lockAsset st sessionId u now = .error "Asset is locked by another user" := by
      simp only [lockAsset, hs, hl, if_pos hlt, bne_iff_ne, ne_eq]
      rw [if_pos hne]
    exact ⟨hlock, by simp [handleRequestLock, hlock]⟩
  · intro l hl hlt
    simp [lockAsset, hs, hl, hlt]
  · intro u hcase
    have hgrant : lockAsset st sessionId u now = .ok
        { st with sessions := st.sessions.insert sessionId
                    ({ session with locked := some ⟨u, now + LOCK_DURATION⟩ }),
                  dbLocks := st.dbLocks.insert sessionId ⟨u, now + LOCK_DURATION⟩ } := by
      rcases hcase with hnone | ⟨l, hl, hle⟩
      · simp [lockAsset, hs, hnone]
      · simp [lockAsset, hs, hl, Nat.not_lt.mpr hle]
    exact ⟨_, hgrant, by simp [SMap.find?_insert_self], by simp [SMap.find?_insert_self]⟩

/-- The running example session and registry state used by the witnesses:
one session `"a"` with the single member `"u"` and no lock. -/
def exSession : CollaborationSession :=
  { id := "a", assetId := "a", users := [{ id := "u", name := "U" }],
    lastModified := 0, locked := none }

def exState : ManagerState :=
  { sessions := [("a", exSession)], operations := [("a", [])],
    dbLocks := [], dbHistory := [] }

/-- Witness for C1: in the concrete unlocked state, `requestLock` by `"v"`
grants a fresh five-minute lock. -/
theorem C1_witness :
    SMap.find? exState.sessions "a" = some exSession ∧
    ∃ st1, lockAsset exState "a" "v" 0 = .ok st1 ∧
      SMap.find? st1.sessions "a" =
        some { exSession with locked := some ⟨"v", 0 + LOCK_DURATION⟩ } ∧
      SMap.find? st1.dbLocks "a" = some ⟨"v", 0 + LOCK_DURATION⟩ :=
  ⟨rfl, (C1_requestLock_exclusivity exState "a" 0 exSession rfl).2.2.2 "v" (Or.inl rfl)⟩

/-- C2: a lock whose `expiresAt` is in the past is treated as absent both by
the edit-permission check used on operation submission (`canUserEdit` allows
any user) and by a new `requestLock` (`lockAsset` grants a different user a
fresh lock), without an explicit release by the old holder. -/
theorem C2_lock_expiry (st : ManagerState) (sessionId : String) (now : Nat)
    (session : CollaborationSession) (l : LockInfo)
    (hs : SMap.find? st.sessions sessionId = some session)
    (hl : session.locked = some l) (hexp : l.lockUntil < now) :
    (∀ u, (canUserEdit st sessionId u now).1 = true) ∧
    (∀ u, u ≠ l.userId →
       ∃ st1, lockAsset st sessionId u now = .ok st1 ∧
         SMap.find? st1.sessions sessionId =
           some { session with locked := some ⟨u, now + LOCK_DURATION⟩ } ∧
         SMap.find? st1.dbLocks sessionId = some ⟨u, now + LOCK_DURATION⟩) := by
  constructor
  · intro u
    simp [canUserEdit, hs, hl, Nat.le_of_lt hexp]
  · intro u _
    have hgrant : lockAsset st sessionId u now = .ok
        { st with sessions := st.sessions.insert sessionId
                    ({ session with locked := some ⟨u, now + LOCK_DURATION⟩ }),
                  dbLocks := st.dbLocks.insert sessionId ⟨u, now + LOCK_DURATION⟩ } := by
      simp [lockAsset, hs, hl, Nat.not_lt.mpr (Nat.le_of_lt hexp)]
    exact ⟨_, hgrant, by simp [SMap.find?_insert_self], by simp [SMap.find?_insert_self]⟩

/-- The example state carrying an expired lock (`expiresAt = 10`) held by
`"u"`, observed at instant `now = 20`. -/
def exSessionExpired : CollaborationSession :=
  { id := "a", assetId := "a", users := [{ id := "u", name := "U" }],
    lastModified := 0, locked := some ⟨"u", 10⟩ }

def exStateExpired : ManagerState :=
  { sessions := [("a", exSessionExpired)], operations := [("a", [])],
    dbLocks := [("a", ⟨"u", 10⟩)], dbHistory := [] }

/-- Witness for C2: with the lock expired at instant 20, user `"v"` may edit
and may take over the lock without any release by `"u"`. -/
theorem C2_witness :
    SMap.find? exStateExpired.sessions "a" = some exSessionExpired ∧
    exSessionExpired.locked = some ⟨"u", 10⟩ ∧ 10 < 20 ∧
    (canUserEdit exStateExpired "a" "v" 20).1 = true ∧
    ∃ st1, lockAsset exStateExpired "a" "v" 20 = .ok st1 ∧
      SMap.find? st1.sessions "a" =
        some { exSessionExpired with locked := some ⟨"v", 20 + LOCK_DURATION⟩ } ∧
      SMap.find? st1.dbLocks "a" = some ⟨"v", 20 + LOCK_DURATION⟩ := by
  have h := C2_lock_expiry exStateExpired "a" 20 exSessionExpired ⟨"u", 10⟩
    rfl rfl (by decide)
  exact ⟨rfl, rfl, by decide, h.1 "v", h.2 "v" (by decide)⟩

/-! ## Claim theorems: session lifecycle (C6) and missing-session errors (C8) -/

/-- C6: `join` is total (`joinSession` is a total function — it has no error
outcome) and idempotent: joining an asset id with no prior session creates a
session containing exactly the joining member (and an empty operation
buffer); joining when the user is already a member changes nothing, so no
duplicate entry is added; and after the last member leaves, the session and
its in-memory operation buffer are removed from the live registry, so
`getActiveUsers` returns the empty list. -/
theorem C6_session_lifecycle (st : ManagerState) (sessionId uid uname : String)
    (now : Nat) :
    (SMap.find? st.sessions sessionId = none →
       SMap.find? (joinSession st sessionId uid uname now).sessions sessionId =
         some { id := sessionId, assetId := sessionId,
                users := [{ id := uid, name := uname }], lastModified := now,
                locked := none } ∧
       SMap.find? (joinSession st sessionId uid uname now).operations sessionId =
         some []) ∧
    (∀ session, SMap.find? st.sessions sessionId = some session →
       (session.users.find? (fun u => u.id == uid)).isSome = true →
       joinSession st sessionId uid uname now = st) ∧
    (∀ session, SMap.find? st.sessions sessionId = some session →
       session.users.filter (fun u => u.id != uid) = [] →
       SMap.find? (leaveSession st sessionId uid).sessions sessionId = none ∧
       SMap.find? (leaveSession st sessionId uid).operations sessionId = none ∧
       getActiveUsers (leaveSession st sessionId uid) sessionId = []) := by
  refine ⟨?_, ?_, ?_⟩
  · intro h
    constructor
    · simp [joinSession, h, SMap.find?_insert_self]
    · simp [joinSession, h, SMap.find?_insert_self]
  · intro session hs hmem
    simp [joinSession, hs, hmem]
  · intro session hs hempty
    have hleave : leaveSession st sessionId uid =
        { st with sessions := st.sessions.erase sessionId,
                  operations := st.operations.erase sessionId } := by
      simp [leaveSession, hs, hempty]
    refine ⟨?_, ?_, ?_⟩
    · rw [hleave]; exact SMap.find?_erase_self _ _
    · rw [hleave]; exact SMap.find?_erase_self _ _
    · rw [getActiveUsers, hleave]
      simp [SMap.find?_erase_self]

/-- Witness for C6: joining the fresh asset `"b"` creates a one-member
session, and when `"u"` (the sole member of `"a"`) leaves, asset `"a"` has no
active users. -/
theorem C6_witness :
    (SMap.find? exState.sessions "b" = none ∧
     SMap.find? (joinSession exState "b" "u" "U" 7).sessions "b" =
       some { id := "b", assetId := "b", users := [{ id := "u", name := "U" }],
              lastModified := 7, locked := none }) ∧
    (SMap.find? exState.sessions "a" = some exSession ∧
     exSession.users.filter (fun u => u.id != "u") = [] ∧
     getActiveUsers (leaveSession exState "a" "u") "a" = []) :=
  ⟨⟨rfl, ((C6_session_lifecycle exState "b" "u" "U" 7).1 rfl).1⟩,
   ⟨rfl, rfl, ((C6_session_lifecycle exState "a" "u" "U" 7).2.2 exSession rfl rfl).2.2⟩⟩

/-- The empty registry (no session was ever joined) and a sample raw
operation payload, used to exercise the missing-session paths. -/
def emptyState : ManagerState :=
  { sessions := [], operations := [], dbLocks := [], dbHistory := [] }

def cexOp : Operation :=
  { type := .insert, position := 0, userId := "u", timestamp := 0 }

/-- Counterexample to C8 as stated: an operation submitted for an asset id
with no active session is rejected through the `canUserEdit` guard with the
lock-conflict message `'Asset is locked by another user'`, not with the
`SessionNotFound` error (`'Session not found'`). -/
theorem C8_counterexample :
    (handleOperation emptyState "a" "u" cexOp 0 none).events =
      [Event.errorMsg "Asset is locked by another user"] ∧
    (handleOperation emptyState "a" "u" cexOp 0 none).events ≠
      [Event.errorMsg "Session not found"] := by
  constructor
  · rfl
  · decide

/-- C8 (amended): `requestLock` and `releaseLock` against an asset id with no
active session fail with the `SessionNotFound` error
(`'Session not found'`), surfaced to the caller; an operation submission
against a missing session is also rejected and surfaced, but through the
edit-permission guard with the message `'Asset is locked by another user'`
(the `LockConflict` wording), not with `SessionNotFound`.  In every case the
state is unchanged and nothing is persisted. -/
theorem C8_missing_session (st : ManagerState) (sessionId userId : String)
    (data : Operation) (now : Nat) (persistResult : Option String)
    (h : SMap.find? st.sessions sessionId = none) :
    lockAsset st sessionId userId now = .error "Session not found" ∧
    releaseLock st sessionId userId = .error "Session not found" ∧
    handleRequestLock st sessionId userId now =
      (st, [Event.errorMsg "Session not found"]) ∧
    handleReleaseLock st sessionId userId =
      (st, [Event.errorMsg "Session not found"]) ∧
    handleOperation st sessionId userId data now persistResult =
      { state := st, events := [Event.errorMsg "Asset is locked by another user"],
        persistAttempts := 0 } := by
  refine ⟨?_, ?_, ?_, ?_, ?_⟩
  · simp [lockAsset, h]
  · simp [releaseLock, h]
  · simp [handleRequestLock, lockAsset, h]
  · simp [handleReleaseLock, releaseLock, h]
  · simp [handleOperation, canUserEdit, h]

/-- Witness for C8 (amended), at the empty registry. -/
theorem C8_witness :
    SMap.find? emptyState.sessions "a" = none ∧
    lockAsset emptyState "a" "u" 0 = .error "Session not found" ∧
    releaseLock emptyState "a" "u" = .error "Session not found" ∧
    handleRequestLock emptyState "a" "u" 0 =
      (emptyState, [Event.errorMsg "Session not found"]) :=
  ⟨rfl, (C8_missing_session emptyState "a" "u" cexOp 0 none rfl).1,
    (C8_missing_session emptyState "a" "u" cexOp 0 none rfl).2.1,
    (C8_missing_session emptyState "a" "u" cexOp 0 none rfl).2.2.1⟩

/-! ## Claim theorems: lock release (C9) -/

/-- Counterexample to C9 as stated: the lock on `"a"` expired at instant 10,
so at instant 20 the claim's reading (an expired lock is equivalent to no
lock for this check) demands that `releaseLock` by the old holder `"u"` fail
with `NotLockOwner`; but `releaseLock` performs no expiry check at all (it
never reads the clock), and the release by `"u"` succeeds, removing the
in-memory lock and deleting the persisted row. -/
theorem C9_counterexample :
    (10 : Nat) < 20 ∧
    releaseLock exStateExpired "a" "u" =
      .ok { sessions := [("a", { exSessionExpired with locked := none })],
            operations := [("a", [])], dbLocks := [], dbHistory := [] } := by
  exact ⟨by decide, rfl⟩

/-- C9 (amended): `releaseLock` fails with `NotLockOwner`
(`'Cannot release lock: not the lock owner'`) whenever no lock is recorded or
the caller is not the recorded holder — expiry is not consulted, so the
recorded holder can release even an expired lock — and on that failure the
state is unchanged; on success it removes the in-memory lock and deletes the
persisted lock row. -/
theorem C9_releaseLock (st : ManagerState) (sessionId userId : String)
    (session : CollaborationSession)
    (hs : SMap.find? st.sessions sessionId = some session) :
    ((session.locked = none ∨ (∃ l, session.locked = some l ∧ l.userId ≠ userId)) →
       releaseLock st sessionId userId =
         .error "Cannot release lock: not the lock owner" ∧
       handleReleaseLock st sessionId userId =
         (st, [Event.errorMsg "Cannot release lock: not the lock owner"])) ∧
    (∀ l, session.locked = some l → l.userId = userId →
       ∃ st1, releaseLock st sessionId userId = .ok st1 ∧
         SMap.find? st1.sessions sessionId = some { session with locked := none } ∧
         SMap.find? st1.dbLocks sessionId = none) := by
  constructor
  · intro hcase
    have herr : releaseLock st sessionId userId =
        .error "Cannot release lock: not the lock owner" := by
      rcases hcase with hnone | ⟨l, hl, hne⟩
      · simp [releaseLock, hs, hnone]
      · simp only [releaseLock, hs, hl, bne_iff_ne, ne_eq]
        rw [if_pos hne]
    exact ⟨herr, by simp [handleReleaseLock, herr]⟩
  · intro l hl heq
    have hok : releaseLock st sessionId userId = .ok
        { st with sessions := st.sessions.insert sessionId
                    ({ session with locked := none }),
                  dbLocks := st.dbLocks.erase sessionId } := by
      simp [releaseLock, hs, hl, heq]
    exact ⟨_, hok, by simp [SMap.find?_insert_self],
      by simp [SMap.find?_erase_self]⟩

/-- Witness for C9 (amended): the recorded holder `"u"` releases the lock on
`"a"`; afterwards the session is unlocked and the lock row is gone. -/
theorem C9_witness :
    SMap.find? exStateExpired.sessions "a" = some exSessionExpired ∧
    exSessionExpired.locked = some ⟨"u", 10⟩ ∧
    ∃ st1, releaseLock exStateExpired "a" "u" = .ok st1 ∧
      SMap.find? st1.sessions "a" = some { exSessionExpired with locked := none } ∧
      SMap.find? st1.dbLocks "a" = none :=
  ⟨rfl, rfl,
    (C9_releaseLock exStateExpired "a" "u" exSessionExpired rfl).2 ⟨"u", 10⟩ rfl rfl⟩

/-! ## Claim theorems: operation submission (C3, C10) -/

theorem canUserEdit_state (st : ManagerState) (sessionId userId : String) (now : Nat) :
    ((canUserEdit st sessionId userId now).2).operations = st.operations ∧
    ((canUserEdit st sessionId userId now).2).dbLocks = st.dbLocks ∧
    ((canUserEdit st sessionId userId now).2).dbHistory = st.dbHistory ∧
    SMap.keys ((canUserEdit st sessionId userId now).2).sessions =
      SMap.keys st.sessions := by
  cases hfind : SMap.find? st.sessions sessionId with
  | none => simp [canUserEdit, hfind]
  | some session =>
    cases hl : session.locked with
    | none => simp [canUserEdit, hfind, hl]
    | some l =>
      by_cases hle : l.lockUntil ≤ now
      · have hins : SMap.keys (SMap.insert st.sessions sessionId
            ({ session with locked := none })) = SMap.keys st.sessions :=
          SMap.keys_insert_of_mem _ _ _ (by rw [← SMap.find?_isSome_iff, hfind]; rfl)
        refine ⟨?_, ?_, ?_, ?_⟩ <;>
          (simp only [canUserEdit, hfind, hl, if_pos hle]
           try exact hins)
      · exact ⟨by simp [canUserEdit, hfind, hl, hle], by simp [canUserEdit, hfind, hl, hle],
          by simp [canUserEdit, hfind, hl, hle], by simp [canUserEdit, hfind, hl, hle]⟩

theorem canUserEdit_true_find (st : ManagerState) (sessionId userId : String)
    (now : Nat) (h : (canUserEdit st sessionId userId now).1 = true) :
    (SMap.find? st.sessions sessionId).isSome := by
  cases hfind : SMap.find? st.sessions sessionId with
  | none => rw [canUserEdit, hfind] at h; exact absurd h (by simp)
  | some session => rfl

theorem canUserEdit_true_session (st : ManagerState) (sessionId userId : String)
    (now : Nat) (h : (canUserEdit st sessionId userId now).1 = true) :
    ∃ s, SMap.find? ((canUserEdit st sessionId userId now).2).sessions sessionId =
      some s := by
  cases hfind : SMap.find? st.sessions sessionId with
  | none => rw [canUserEdit, hfind] at h; exact absurd h (by simp)
  | some session =>
    cases hl : session.locked with
    | none => exact ⟨session, by simp [canUserEdit, hfind, hl]⟩
    | some l =>
      by_cases hle : l.lockUntil ≤ now
      · refine ⟨{ session with locked := none }, ?_⟩
        simp only [canUserEdit, hfind, hl, if_pos hle]
        exact SMap.find?_insert_self _ _ _
      · exact ⟨session, by simp [canUserEdit, hfind, hl, hle]⟩

/-- In a well-formed registry, when the edit check passes the session's
operation buffer exists (it is never created or destroyed separately from the
session). -/
theorem wf_buffer_of_canUserEdit {st : ManagerState} (hwf : st.wf)
    (sessionId userId : String) (now : Nat)
    (h : (canUserEdit st sessionId userId now).1 = true) :
    ∃ ops, SMap.find? st.operations sessionId = some ops := by
  have h1 := canUserEdit_true_find st sessionId userId now h
  rw [SMap.find?_isSome_iff] at h1
  have h2 : sessionId ∈ SMap.keys st.operations := hwf ▸ h1
  rw [← SMap.find?_isSome_iff] at h2
  exact Option.isSome_iff_exists.mp h2

/-- Behaviour of `applyOperation` when both the buffer and the session exist:
the operation is appended, `lastModified` is stamped, the persist call is
attempted exactly once, a throw of the persist is propagated, and the history
table grows only on success. -/
theorem applyOperation_spec (st : ManagerState) (sessionId : String)
    (op : Operation) (persistResult : Option String) (ops : List Operation)
    (session : CollaborationSession)
    (hops : SMap.find? st.operations sessionId = some ops)
    (hs : SMap.find? st.sessions sessionId = some session) :
    SMap.find? (applyOperation st sessionId op persistResult).state.operations
        sessionId = some (ops ++ [op]) ∧
    SMap.find? (applyOperation st sessionId op persistResult).state.sessions
        sessionId = some { session with lastModified := op.timestamp } ∧
    (applyOperation st sessionId op persistResult).persistAttempts = 1 ∧
    (applyOperation st sessionId op persistResult).thrown = persistResult ∧
    (applyOperation st sessionId op persistResult).state.dbHistory =
      st.dbHistory ++ (match persistResult with
        | none => [{ assetId := sessionId, userId := op.userId,
                     operation := op.type, data := op, timestamp := op.timestamp }]
        | some _ => []) := by
  cases persistResult with
  | none =>
    refine ⟨?_, ?_, ?_, ?_, ?_⟩ <;>
      simp [applyOperation, hops, hs, SMap.find?_insert_self]
  | some msg =>
    refine ⟨?_, ?_, ?_, ?_, ?_⟩ <;>
      simp [applyOperation, hops, hs, SMap.find?_insert_self]


/-- C3: the broadcast of a submitted operation occurs only after both the
in-memory mutation (log append + `lastModified` stamp) and the Durable Store
persist of the audit record have succeeded; if the persist throws, the
operation is not broadcast, the history table is unchanged, the error is
surfaced to the submitting caller as an `error` event, and the persist is
attempted at most once (no automatic retry). -/
theorem C3_broadcast_after_persist (st : ManagerState) (sessionId userId : String)
    (data : Operation) (now : Nat) (persistResult : Option String) (hwf : st.wf)
    (r : HandlerOut)
    (hr : r = handleOperation st sessionId userId data now persistResult) :
    ((Event.opBroadcast { data with userId := userId, timestamp := now }) ∈ r.events →
       persistResult = none ∧
       (∃ ops, SMap.find? st.operations sessionId = some ops ∧
          SMap.find? r.state.operations sessionId =
            some (ops ++ [{ data with userId := userId, timestamp := now }])) ∧
       (∃ session1, SMap.find? r.state.sessions sessionId = some session1 ∧
          session1.lastModified = now) ∧
       r.state.dbHistory = st.dbHistory ++
         [{ assetId := sessionId, userId := userId, operation := data.type,
            data := { data with userId := userId, timestamp := now },
            timestamp := now }]) ∧
    (∀ msg, persistResult = some msg →
       (∀ o, Event.opBroadcast o ∉ r.events) ∧
       r.state.dbHistory = st.dbHistory ∧
       ((canUserEdit st sessionId userId now).1 = true →
          r.events = [Event.errorMsg msg])) ∧
    r.persistAttempts ≤ 1 := by
  cases hb : (canUserEdit st sessionId userId now).1 with
  | false =>
    have hre : r = ⟨(canUserEdit st sessionId userId now).2,
        [Event.errorMsg "Asset is locked by another user"], 0⟩ := by
      rw [hr]; simp [handleOperation, hb]
    refine ⟨?_, ?_, ?_⟩
    · intro hmem
      rw [hre] at hmem
      simp at hmem
    · intro msg _
      refine ⟨?_, ?_, ?_⟩
      · intro o hmem
        rw [hre] at hmem
        simp at hmem
      · rw [hre]
        exact (canUserEdit_state st sessionId userId now).2.2.1
      · intro htrue
        exact Bool.noConfusion htrue
    · rw [hre]
      exact Nat.zero_le 1
  | true =>
    obtain ⟨ops, hops⟩ := wf_buffer_of_canUserEdit hwf sessionId userId now hb
    obtain ⟨s1, hs1⟩ := canUserEdit_true_session st sessionId userId now hb
    have hops2 : SMap.find? ((canUserEdit st sessionId userId now).2).operations
        sessionId = some ops := by
      rw [(canUserEdit_state st sessionId userId now).1]; exact hops
    have hspec := applyOperation_spec ((canUserEdit st sessionId userId now).2)
      sessionId { data with userId := userId, timestamp := now } persistResult
      ops s1 hops2 hs1
    have hdb : ((canUserEdit st sessionId userId now).2).dbHistory = st.dbHistory :=
      (canUserEdit_state st sessionId userId now).2.2.1
    cases hpr : persistResult with
    | none =>
      rw [hpr] at hspec
      have hre : r = ⟨(applyOperation ((canUserEdit st sessionId userId now).2)
            sessionId { data with userId := userId, timestamp := now } none).state,
          [Event.opBroadcast { data with userId := userId, timestamp := now }], 1⟩ := by
        rw [hr, hpr]
        simp only [handleOperation, hb, Bool.not_true, Bool.false_eq_true, if_false]
        rw [hspec.2.2.2.1, hspec.2.2.1]
      refine ⟨?_, ?_, ?_⟩
      · intro _
        refine ⟨rfl, ⟨ops, hops, ?_⟩, ⟨{ s1 with lastModified := now }, ?_, rfl⟩, ?_⟩
        · rw [hre]; exact hspec.1
        · rw [hre]; exact hspec.2.1
        · rw [hre, hspec.2.2.2.2, hdb]
      · intro msg hmsg
        exact absurd hmsg (by simp)
      · rw [hre]
    | some msg =>
      rw [hpr] at hspec
      have hre : r = ⟨(applyOperation ((canUserEdit st sessionId userId now).2)
            sessionId { data with userId := userId, timestamp := now } (some msg)).state,
          [Event.errorMsg msg], 1⟩ := by
        rw [hr, hpr]
        simp only [handleOperation, hb, Bool.not_true, Bool.false_eq_true, if_false]
        rw [hspec.2.2.2.1, hspec.2.2.1]
      refine ⟨?_, ?_, ?_⟩
      · intro hmem
        rw [hre] at hmem
        simp at hmem
      · intro msg2 hmsg2
        cases hmsg2
        refine ⟨?_, ?_, fun _ => by rw [hre]⟩
        · intro o hmem
          rw [hre] at hmem
          simp at hmem
        · rw [hre, hspec.2.2.2.2, hdb]
          simp
      · rw [hre]

/-- Witness for C3: at the concrete one-member state with a successful
persist, the submitted operation is broadcast only with the log appended, the
session stamped, and the audit record persisted. -/
theorem C3_witness :
    exState.wf ∧
    (Event.opBroadcast { cexOp with userId := "u", timestamp := 5 }) ∈
      (handleOperation exState "a" "u" cexOp 5 none).events ∧
    ((∃ ops, SMap.find? exState.operations "a" = some ops ∧
        SMap.find? (handleOperation exState "a" "u" cexOp 5 none).state.operations "a" =
          some (ops ++ [{ cexOp with userId := "u", timestamp := 5 }])) ∧
     (∃ session1,
        SMap.find? (handleOperation exState "a" "u" cexOp 5 none).state.sessions "a" =
          some session1 ∧ session1.lastModified = 5) ∧
     (handleOperation exState "a" "u" cexOp 5 none).state.dbHistory =
       exState.dbHistory ++
         [{ assetId := "a", userId := "u", operation := cexOp.type,
            data := { cexOp with userId := "u", timestamp := 5 }, timestamp := 5 }]) := by
  have h := (C3_broadcast_after_persist exState "a" "u" cexOp 5 none (by decide)
    (handleOperation exState "a" "u" cexOp 5 none) rfl).1
  exact ⟨by decide, by decide, (h (by decide)).2⟩

/-- C10: when the Durable Store persist throws during operation submission,
the operation has already been appended to the session's in-memory log and
`lastModified` has already been stamped before the error propagates; these
in-memory mutations are not rolled back — only the broadcast is suppressed,
the history table stays unchanged, and the error is reported to the
submitter. -/
theorem C10_no_rollback_on_persist_failure (st : ManagerState)
    (sessionId userId : String) (data : Operation) (now : Nat) (msg : String)
    (hwf : st.wf) (hallow : (canUserEdit st sessionId userId now).1 = true)
    (r : HandlerOut)
    (hr : r = handleOperation st sessionId userId data now (some msg)) :
    ∃ ops session1,
      SMap.find? st.operations sessionId = some ops ∧
      SMap.find? r.state.operations sessionId =
        some (ops ++ [{ data with userId := userId, timestamp := now }]) ∧
      SMap.find? r.state.sessions sessionId = some session1 ∧
      session1.lastModified = now ∧
      r.events = [Event.errorMsg msg] ∧
      (∀ o, Event.opBroadcast o ∉ r.events) ∧
      r.state.dbHistory = st.dbHistory := by
  obtain ⟨ops, hops⟩ := wf_buffer_of_canUserEdit hwf sessionId userId now hallow
  obtain ⟨s1, hs1⟩ := canUserEdit_true_session st sessionId userId now hallow
  have hops2 : SMap.find? ((canUserEdit st sessionId userId now).2).operations
      sessionId = some ops := by
    rw [(canUserEdit_state st sessionId userId now).1]; exact hops
  have hspec := applyOperation_spec ((canUserEdit st sessionId userId now).2)
    sessionId { data with userId := userId, timestamp := now } (some msg)
    ops s1 hops2 hs1
  have hre : r = ⟨(applyOperation ((canUserEdit st sessionId userId now).2)
        sessionId { data with userId := userId, timestamp := now } (some msg)).state,
      [Event.errorMsg msg], 1⟩ := by
    rw [hr]
    simp only [handleOperation, hallow, Bool.not_true, Bool.false_eq_true, if_false]
    rw [hspec.2.2.2.1, hspec.2.2.1]
  refine ⟨ops, { s1 with lastModified := now }, hops, ?_, ?_, rfl, ?_, ?_, ?_⟩
  · rw [hre]; exact hspec.1
  · rw [hre]; exact hspec.2.1
  · rw [hre]
  · intro o hmem
    rw [hre] at hmem
    simp at hmem
  · rw [hre, hspec.2.2.2.2, (canUserEdit_state st sessionId userId now).2.2.1]
    simp

/-- Witness for C10: at the concrete one-member state a persist throwing
`'db down'` leaves the appended operation and the stamped `lastModified` in
memory, emits only the error event, and leaves the history table untouched. -/
theorem C10_witness :
    exState.wf ∧ (canUserEdit exState "a" "u" 5).1 = true ∧
    ∃ ops session1,
      SMap.find? exState.operations "a" = some ops ∧
      SMap.find? (handleOperation exState "a" "u" cexOp 5 (some "db down")).state.operations "a" =
        some (ops ++ [{ cexOp with userId := "u", timestamp := 5 }]) ∧
      SMap.find? (handleOperation exState "a" "u" cexOp 5 (some "db down")).state.sessions "a" =
        some session1 ∧
      session1.lastModified = 5 ∧
      (handleOperation exState "a" "u" cexOp 5 (some "db down")).events =
        [Event.errorMsg "db down"] ∧
      (∀ o, Event.opBroadcast o ∉
        (handleOperation exState "a" "u" cexOp 5 (some "db down")).events) ∧
      (handleOperation exState "a" "u" cexOp 5 (some "db down")).state.dbHistory =
        exState.dbHistory :=
  ⟨by decide, by decide,
    C10_no_rollback_on_persist_failure exState "a" "u" cexOp 5 "db down"
      (by decide) (by decide)
      (handleOperation exState "a" "u" cexOp 5 (some "db down")) rfl⟩

/-! ## Claim theorems: revert (C4) -/

/-- C4: `revertToVersion` fails with `VersionNotFound` (`'Version not found'`)
when the target is missing; otherwise it succeeds, mapping every change of
the target to its inverse (add becomes delete carrying the add's content as
`previousContent`; delete becomes add carrying its `previousContent` as
content; modify swaps `content` and `previousContent`) and committing the
result as a brand-new version tagged `revert` whose description names the
reverted-to version; no existing version is mutated or deleted (the store is
only appended to), so the stored version count for the asset increases by
exactly one. -/
theorem C4_revertToVersion (st : VMState) (newId : String) (now : Nat)
    (assetId versionId userId : String) :
    (getVersion st versionId = none →
       revertToVersion st newId now assetId versionId userId =
         .error "Version not found") ∧
    (∀ version, getVersion st versionId = some version →
       ∃ p, revertToVersion st newId now assetId versionId userId = .ok p) ∧
    (∀ version, getVersion st versionId = some version →
       ∀ v st1, revertToVersion st newId now assetId versionId userId = .ok (v, st1) →
         v.changes = version.changes.map invertChange ∧
         v.tags = ["revert"] ∧
         v.description = "Reverted to version " ++ versionId ∧
         v.id = newId ∧ v.assetId = assetId ∧ v.userId = userId ∧ v.timestamp = now ∧
         st1.versions = st.versions ++ [v] ∧
         (∀ w ∈ st.versions, w ∈ st1.versions) ∧
         List.length (List.filter (fun w => w.assetId == assetId) st1.versions) =
           List.length (List.filter (fun w => w.assetId == assetId) st.versions) + 1) ∧
    (∀ c : Change, c.type = ChangeType.add → invertChange c =
       { type := ChangeType.delete, path := c.path, content := none,
         previousContent := c.content, metadata := none }) ∧
    (∀ c : Change, c.type = ChangeType.delete → invertChange c =
       { type := ChangeType.add, path := c.path, content := c.previousContent,
         previousContent := none, metadata := none }) ∧
    (∀ c : Change, c.type = ChangeType.modify → invertChange c =
       { type := ChangeType.modify, path := c.path, content := c.previousContent,
         previousContent := c.content, metadata := none }) := by
  refine ⟨?_, ?_, ?_, ?_, ?_, ?_⟩
  · intro h
    simp [revertToVersion, h]
  · intro version hv
    refine ⟨createVersion st newId now assetId userId
      (version.changes.map invertChange) ("Reverted to version " ++ versionId)
      ["revert"], ?_⟩
    simp [revertToVersion, hv]
  · intro version hv v st1 hok
    rw [revertToVersion] at hok
    rw [hv] at hok
    simp only [createVersion, Except.ok.injEq, Prod.mk.injEq] at hok
    obtain ⟨hv1, hst1⟩ := hok
    subst hv1
    subst hst1
    refine ⟨rfl, rfl, rfl, rfl, rfl, rfl, rfl, rfl, ?_, ?_⟩
    · intro w hw
      exact List.mem_append_left _ hw
    · simp [List.filter_append]
  · intro c hc
    simp [invertChange, hc]
  · intro c hc
    simp [invertChange, hc]
  · intro c hc
    simp [invertChange, hc]

/-- The Scenario C/D versions: `vA` adds `/a.txt` with content `hello`, `vB`
modifies it to `world`; `stC` stores both. -/
def vA : Version :=
  { id := "A", assetId := "doc", userId := "u", timestamp := 1,
    changes := [{ type := .add, path := "/a.txt", content := some "hello" }],
    tags := [], description := "v1" }

def vB : Version :=
  { id := "B", assetId := "doc", userId := "u", timestamp := 2,
    changes := [{ type := .modify, path := "/a.txt", content := some "world",
                  previousContent := some "hello" }],
    tags := [], description := "v2" }

def stC : VMState := { versions := [vA, vB] }

/-- Witness for C4 (Scenario D): reverting to `vA` commits a brand-new
version whose sole change deletes `/a.txt` carrying `hello` as
`previousContent`, tagged `revert`, and the store grows by one version. -/
theorem C4_witness :
    getVersion stC "A" = some vA ∧
    ∃ v st1, revertToVersion stC "N" 9 "doc" "A" "u" = .ok (v, st1) ∧
      (v.changes = vA.changes.map invertChange ∧
       v.tags = ["revert"] ∧
       v.description = "Reverted to version " ++ "A" ∧
       v.id = "N" ∧ v.assetId = "doc" ∧ v.userId = "u" ∧ v.timestamp = 9 ∧
       st1.versions = stC.versions ++ [v] ∧
       (∀ w ∈ stC.versions, w ∈ st1.versions) ∧
       List.length (List.filter (fun w => w.assetId == "doc") st1.versions) =
         List.length (List.filter (fun w => w.assetId == "doc") stC.versions) + 1) ∧
      v.changes = [{ type := ChangeType.delete, path := "/a.txt",
                     previousContent := some "hello" }] := by
  refine ⟨rfl, _, _, rfl, ?_, ?_⟩
  · exact (C4_revertToVersion stC "N" 9 "doc" "A" "u").2.2.1 vA rfl _ _ rfl
  · rfl

/-! ## Claim theorems: tags (C7) -/

theorem find?_map_ite {α : Type} (p : α → Bool) (f : α → α) (l : List α) (a : α)
    (ha : List.find? p l = some a) (hfa : p (f a) = true) :
    List.find? p (l.map (fun v => if p v then f v else v)) = some (f a) := by
  induction l with
  | nil => simp at ha
  | cons x xs ih =>
    cases hx : p x with
    | true =>
      rw [List.find?_cons_of_pos _ hx] at ha
      cases ha
      simp only [List.map_cons, if_pos hx]
      exact List.find?_cons_of_pos _ hfa
    | false =>
      rw [List.find?_cons_of_neg _ (by simp [hx])] at ha
      simp only [List.map_cons, if_neg (by simp [hx] : ¬ p x = true)]
      rw [List.find?_cons_of_neg _ (by simp [hx])]
      exact ih ha

/-- A `prisma.assetVersion.update` keyed on the version that `getVersion`
resolves rewrites exactly that record's view. -/
theorem getVersion_updateVersion (st : VMState) (versionId : String)
    (f : Version → Version) (version : Version)
    (hv : getVersion st versionId = some version)
    (hid : (f version).id = version.id) :
    getVersion (updateVersion st versionId f) versionId = some (f version) := by
  unfold getVersion at hv
  have hpa := List.find?_some hv
  simp only [beq_iff_eq] at hpa
  have hfa : ((f version).id == versionId) = true := by
    rw [beq_iff_eq, hid]; exact hpa
  unfold getVersion updateVersion
  exact find?_map_ite (fun v : Version => v.id == versionId) f st.versions version hv hfa

/-- The concrete version store for the tag claims: a single version `"v1"`
tagged `["x"]`. -/
def vmV : Version :=
  { id := "v1", assetId := "doc", userId := "u", timestamp := 0,
    changes := [], tags := ["x"], description := "d" }

def vmSt : VMState := { versions := [vmV] }

def vmStAdded : VMState := { versions := [{ vmV with tags := ["x", "t"] }] }

def vmStAdded2 : VMState := { versions := [{ vmV with tags := ["x", "t", "t"] }] }

/-- Counterexample to C7 as stated: `addTag` updates with Prisma's
`tags: { push: tag }`, which appends unconditionally (the repository's own
test expects exactly this update call), so calling `addTag` twice with the
same tag leaves the tag in the list twice, not exactly once. -/
theorem C7_counterexample :
    addTag vmSt "v1" "t" = .ok vmStAdded ∧
    addTag vmStAdded "v1" "t" = .ok vmStAdded2 ∧
    (getVersion vmStAdded2 "v1").map (fun v => v.tags.count "t") = some 2 := by
  refine ⟨rfl, rfl, rfl⟩

/-- C7 (amended): `addTag` and `removeTag` fail with `VersionNotFound`
(`'Version not found'`) when the version id does not resolve; a successful
`addTag` appends the tag unconditionally (a duplicate add stores the tag a
second time — Prisma `push` semantics, not idempotent); `removeTag` filters
out every copy of the tag, and removing an absent tag is a successful no-op,
not an error. -/
theorem C7_tag_operations (st : VMState) (versionId tag : String) :
    (getVersion st versionId = none →
       addTag st versionId tag = .error "Version not found" ∧
       removeTag st versionId tag = .error "Version not found") ∧
    (∀ version, getVersion st versionId = some version →
       (∃ st1, addTag st versionId tag = .ok st1 ∧
          getVersion st1 versionId =
            some { version with tags := version.tags ++ [tag] }) ∧
       (∃ st1, removeTag st versionId tag = .ok st1 ∧
          getVersion st1 versionId =
            some { version with tags := version.tags.filter (fun t => t != tag) }) ∧
       (tag ∉ version.tags →
          ∃ st1, removeTag st versionId tag = .ok st1 ∧
            getVersion st1 versionId = some version)) := by
  constructor
  · intro h
    exact ⟨by simp [addTag, h], by simp [removeTag, h]⟩
  · intro version hv
    have hadd : addTag st versionId tag =
        .ok (updateVersion st versionId (fun v => { v with tags := v.tags ++ [tag] })) := by
      simp [addTag, hv]
    have hrem : removeTag st versionId tag =
        .ok (updateVersion st versionId
          (fun _ => { version with tags := version.tags.filter (fun t => t != tag) })) := by
      simp [removeTag, hv]
    refine ⟨⟨_, hadd, ?_⟩, ⟨_, hrem, ?_⟩, ?_⟩
    · exact getVersion_updateVersion st versionId _ version hv rfl
    · exact getVersion_updateVersion st versionId _ version hv rfl
    · intro habs
      have hfilter : version.tags.filter (fun t => t != tag) = version.tags := by
        apply List.filter_eq_self.mpr
        intro t ht
        simp only [bne_iff_ne, ne_eq, decide_eq_true_eq]
        intro heq
        exact habs (heq ▸ ht)
      refine ⟨_, hrem, ?_⟩
      have := getVersion_updateVersion st versionId
        (fun _ => { version with tags := version.tags.filter (fun t => t != tag) })
        version hv rfl
      rw [this, hfilter]

/-- Witness for C7 (amended): at the concrete store, adding `"t"` to `"v1"`
appends it, and removing the absent tag `"z"` is a successful no-op. -/
theorem C7_witness :
    getVersion vmSt "v1" = some vmV ∧
    "z" ∉ vmV.tags ∧
    (∃ st1, addTag vmSt "v1" "t" = .ok st1 ∧
       getVersion st1 "v1" = some { vmV with tags := vmV.tags ++ ["t"] }) ∧
    (∃ st1, removeTag vmSt "v1" "z" = .ok st1 ∧
       getVersion st1 "v1" = some vmV) :=
  ⟨rfl, by decide,
    ((C7_tag_operations vmSt "v1" "t").2 vmV rfl).1,
    ((C7_tag_operations vmSt "v1" "z").2 vmV rfl).2.2 (by decide)⟩

/-! ## Claim theorems: version diff (C5) -/

theorem mem_insertionDedup (p : String) (l : List String) :
    p ∈ insertionDedup l ↔ p ∈ l := by
  induction l using insertionDedup.induct with
  | case1 => simp [insertionDedup]
  | case2 x xs ih =>
    rw [insertionDedup]
    by_cases hpx : p = x
    · subst hpx
      simp
    · simp only [List.mem_cons, hpx, false_or]
      rw [ih, List.mem_filter]
      constructor
      · exact fun h => h.1
      · intro h
        exact ⟨h, by simp [hpx]⟩

theorem comparePath_path (differ : String → String → List (Int × String))
    (v1 v2 : Version) (p : String) (c : Change)
    (h : comparePath differ v1 v2 p = some c) : c.path = p := by
  simp only [comparePath] at h
  split at h
  · cases h; rfl
  · cases h; rfl
  · split at h
    · cases h; rfl
    · cases h

theorem mem_compareVersionsChanges (differ : String → String → List (Int × String))
    (v1 v2 : Version) (c : Change) :
    c ∈ compareVersionsChanges differ v1 v2 ↔
      c.path ∈ unionPaths v1 v2 ∧ comparePath differ v1 v2 c.path = some c := by
  unfold compareVersionsChanges
  rw [List.mem_filterMap]
  constructor
  · rintro ⟨p, hp, hc⟩
    have hpath := comparePath_path differ v1 v2 p c hc
    subst hpath
    exact ⟨hp, hc⟩
  · rintro ⟨h1, h2⟩
    exact ⟨c.path, h1, h2⟩

/-- A change path found in a version's change set contributes its path to the
union of paths built by `compareVersions`. -/
theorem path_mem_unionPaths_left (v1 v2 : Version) (p : String) (c : Change)
    (h : List.find? (fun c => c.path == p) v1.changes = some c) :
    p ∈ unionPaths v1 v2 := by
  have hmem := List.mem_of_find?_eq_some h
  have hpred := List.find?_some h
  simp only [beq_iff_eq] at hpred
  rw [unionPaths, mem_insertionDedup, List.mem_append]
  exact Or.inl (List.mem_map.mpr ⟨c, hmem, hpred⟩)

theorem path_mem_unionPaths_right (v1 v2 : Version) (p : String) (c : Change)
    (h : List.find? (fun c => c.path == p) v2.changes = some c) :
    p ∈ unionPaths v1 v2 := by
  have hmem := List.mem_of_find?_eq_some h
  have hpred := List.find?_some h
  simp only [beq_iff_eq] at hpred
  rw [unionPaths, mem_insertionDedup, List.mem_append]
  exact Or.inr (List.mem_map.mpr ⟨c, hmem, hpred⟩)

/-- C5: `compareVersions` fails with `VersionNotFound`
(`'One or both versions not found'`) when either id does not resolve;
otherwise it returns at most one change per path over the union of the two
change sets' paths, by the path-keyed rules: a path only in B yields an add
with B's content; a path only in A yields a delete with A's content as
`previousContent`; a path in both with differing content yields a modify
carrying `content`, `previousContent` and the fine-grained diff in
`metadata`; and a path in both with identical content yields no change. -/
theorem C5_compareVersions (differ : String → String → List (Int × String))
    (st : VMState) (id1 id2 : String) :
    ((getVersion st id1 = none ∨ getVersion st id2 = none) →
       compareVersions differ st id1 id2 =
         .error "One or both versions not found") ∧
    (∀ v1 v2, getVersion st id1 = some v1 → getVersion st id2 = some v2 →
       compareVersions differ st id1 id2 =
         .ok (compareVersionsChanges differ v1 v2) ∧
       (∀ c1, c1 ∈ compareVersionsChanges differ v1 v2 →
          ∀ c2, c2 ∈ compareVersionsChanges differ v1 v2 →
            c1.path = c2.path → c1 = c2) ∧
       (∀ p c2v, List.find? (fun c => c.path == p) v1.changes = none →
          List.find? (fun c => c.path == p) v2.changes = some c2v →
          { type := ChangeType.add, path := p, content := c2v.content,
            previousContent := none, metadata := none } ∈
            compareVersionsChanges differ v1 v2) ∧
       (∀ p c1v, List.find? (fun c => c.path == p) v1.changes = some c1v →
          List.find? (fun c => c.path == p) v2.changes = none →
          { type := ChangeType.delete, path := p, content := none,
            previousContent := c1v.content, metadata := none } ∈
            compareVersionsChanges differ v1 v2) ∧
       (∀ p c1v c2v, List.find? (fun c => c.path == p) v1.changes = some c1v →
          List.find? (fun c => c.path == p) v2.changes = some c2v →
          c1v.content ≠ c2v.content →
          { type := ChangeType.modify, path := p, content := c2v.content,
            previousContent := c1v.content,
            metadata := some (differ (c1v.content.getD "") (c2v.content.getD "")) } ∈
            compareVersionsChanges differ v1 v2) ∧
       (∀ p c1v c2v, List.find? (fun c => c.path == p) v1.changes = some c1v →
          List.find? (fun c => c.path == p) v2.changes = some c2v →
          c1v.content = c2v.content →
          ∀ c, c ∈ compareVersionsChanges differ v1 v2 → c.path ≠ p)) := by
  constructor
  · intro hcase
    rcases h1 : getVersion st id1 with _ | v1
    · simp [compareVersions, h1]
    · rcases h2 : getVersion st id2 with _ | v2
      · simp [compareVersions, h1, h2]
      · rcases hcase with hc | hc
        · rw [h1] at hc; cases hc
        · rw [h2] at hc; cases hc
  · intro v1 v2 h1 h2
    refine ⟨by simp [compareVersions, h1, h2], ?_, ?_, ?_, ?_, ?_⟩
    · intro c1 hc1 c2 hc2 hp
      rw [mem_compareVersionsChanges] at hc1 hc2
      have e1 := hc1.2
      have e2 := hc2.2
      rw [hp] at e1
      rw [e1] at e2
      exact Option.some.inj e2
    · intro p c2v hf1 hf2
      rw [mem_compareVersionsChanges]
      refine ⟨path_mem_unionPaths_right v1 v2 p c2v hf2, ?_⟩
      simp only [comparePath, hf1, hf2]
      rfl
    · intro p c1v hf1 hf2
      rw [mem_compareVersionsChanges]
      refine ⟨path_mem_unionPaths_left v1 v2 p c1v hf1, ?_⟩
      simp only [comparePath, hf1, hf2]
    · intro p c1v c2v hf1 hf2 hne
      rw [mem_compareVersionsChanges]
      refine ⟨path_mem_unionPaths_left v1 v2 p c1v hf1, ?_⟩
      simp only [comparePath, hf1, hf2, if_pos hne]
    · intro p c1v c2v hf1 hf2 heq c hc hcp
      rw [mem_compareVersionsChanges] at hc
      have e := hc.2
      rw [hcp] at e
      simp only [comparePath, hf1, hf2, heq] at e
      simp at e

/-- A concrete stand-in for the external semantic diff used by the witness. -/
def exDiffer : String → String → List (Int × String) :=
  fun a b => [(-1, a), (1, b)]

/-- Witness for C5 (Scenario C): comparing `vA` (adds `/a.txt` = `hello`) with
`vB` (modifies it to `world`) yields the single modify change carrying
`world`, previous `hello`, and the fine-grained diff. -/
theorem C5_witness :
    getVersion stC "A" = some vA ∧ getVersion stC "B" = some vB ∧
    compareVersions exDiffer stC "A" "B" =
      .ok (compareVersionsChanges exDiffer vA vB) ∧
    { type := ChangeType.modify, path := "/a.txt", content := some "world",
      previousContent := some "hello",
      metadata := some (exDiffer "hello" "world") } ∈
      compareVersionsChanges exDiffer vA vB := by
  have h := (C5_compareVersions exDiffer stC "A" "B").2 vA vB rfl rfl
  exact ⟨rfl, rfl, h.1, h.2.2.2.2.1 "/a.txt" _ _ rfl rfl (by decide)⟩
